import Mathlib

/-!
Verification of the `oci-digest` Go package (package `digest`) against its
natural-language specification.

Shallow embedding conventions:
* Go `[]byte` is `List Nat` (each entry a byte value `< 256`).
* Go `string` is Lean `String`; `len(s)` is the character count (all strings
  manipulated by the package are ASCII, where byte length and rune count agree,
  and every comparison made by the code is on ASCII data).
* Go `int` is `Int`.
* Go errors are the inductive `GoErr`; `fmt.Errorf("%w: %s", e, s)` is
  `GoErr.wrap e s` and `errors.Join a b` is `GoErr.join a b`; `errors.Is`
  is the function `errorIs`.
* Fallible Go functions return `Except GoErr α` (or pair an `Option GoErr`
  with their results, matching Go's `(value, error)` shape).
* The global mutable algorithm registry (`algorithms` map in algorithm.go)
  is threaded explicitly as a `Registry` value; the `init()` function's
  effect is the constant `initRegistry`.
* A Go `hash.Hash` is a `HashSt`: an immutable description of the
  implementation (`HashImpl`) plus the list of bytes written so far.
  `Sum(nil)` applies the implementation's function to the accumulated bytes;
  per the documented `hash.Hash` contract, `Sum` does not change the
  underlying state.  `Write` may report an error (the interface contract
  says it never does, but reader.go/writer.go defend against it, so the
  model keeps the possibility via `HashImpl.writeErr`).
* The built-in algorithms use real SHA-256 / SHA-512, implemented below and
  registered by `initRegistry` exactly as `init()` in algorithm.go does.
-/

namespace OciDigest

/-- Error values of errors.go, plus the wrapping/joining structure produced
by `fmt.Errorf("%w: ...")` and `errors.Join`, and `str` for foreign errors
(such as errors supplied by a caller's source or hash). -/
inductive GoErr where
  | algorithmExists
  | algorithmInvalidName
  | algorithmUnknown
  | digestInvalid
  | encodeInterfaceInvalid
  | encodingInvalid
  | hashFunctionInvalid
  | hashInterfaceInvalid
  | readerInvalid
  | writerInvalid
  | wrap (base : GoErr) (msg : String)
  | join (a b : GoErr)
  | str (msg : String)
  deriving DecidableEq, Repr

/-- Embedding of Go's `errors.Is`: a target error is discoverable inside an
error built by wrapping (`%w`) and joining. -/
def errorIs : GoErr → GoErr → Bool
  | .wrap b m, t => (GoErr.wrap b m == t) || errorIs b t
  | .join a b, t => (GoErr.join a b == t) || errorIs a t || errorIs b t
  | e, t => e == t

/-! ## Hexadecimal text (encoding.go) -/

/-- Lowercase hexadecimal digit for a value below 16 (the digit table
`0123456789abcdef` that Go's formatter draws from). -/
def hexDigitChar (n : Nat) : Char :=
  if n < 10 then Char.ofNat ('0'.toNat + n) else Char.ofNat ('a'.toNat + (n - 10))

/-- The two hex characters `fmt` prints for one byte. -/
def byteToHexChars (b : Nat) : List Char :=
  [hexDigitChar ((b / 16) % 16), hexDigitChar (b % 16)]

/-- Hex rendering of a byte slice, as the character list of Go's `%x`. -/
def hexChars : List Nat → List Char
  | [] => []
  | b :: bs => byteToHexChars b ++ hexChars bs

/-- Go's `fmt.Sprintf("%*x", width, p)`: the hex text of `p`, left-padded
with spaces up to `width` characters.  (encoding.go only calls it when the
hex text already has exactly `width` characters, so the padding is inert.) -/
def sprintfStarX (width : Int) (p : List Nat) : String :=
  let h := hexChars p
  String.mk (List.replicate (width - (h.length : Int)).toNat ' ' ++ h)

/-- Character test of encoding.go's `isHex` loop body: the rune is rejected
when `(r < 'a' || r > 'f') && (r < '0' || r > '9')`. -/
def isHexChar (c : Char) : Bool :=
  !((decide (c < 'a') || decide ('f' < c)) && (decide (c < '0') || decide ('9' < c)))

/-- encoding.go `isHex`: every rune of the string is a lowercase hex digit. -/
def isHex (s : String) : Bool :=
  s.data.all isHexChar

/-- encoding.go `EncodeHex`: the hex encoder, carrying the expected encoded
text length (`Len`, a Go `int`). -/
structure EncodeHex where
  Len : Int
  deriving DecidableEq, Repr

/-- encoding.go `EncodeHex.Encode`: fails with `ErrEncodingInvalid` when
`len(p)*2 != e.Len`, and otherwise prints `fmt.Sprintf("%*x", e.Len, p)`. -/
def EncodeHex.Encode (e : EncodeHex) (p : List Nat) : Except GoErr String :=
  if 2 * (p.length : Int) ≠ e.Len then .error .encodingInvalid
  else .ok (sprintfStarX e.Len p)

/-- encoding.go `EncodeHex.Validate`: the length matches `Len` and every
character is lowercase hex. -/
def EncodeHex.Validate (e : EncodeHex) (s : String) : Bool :=
  decide ((s.length : Int) = e.Len) && isHex s

/-- The `Encoder` interface of encoding.go, as a pair of capabilities. -/
structure Encoder where
  Encode : List Nat → Except GoErr String
  Validate : String → Bool

/-- The `Encoder` instance an `EncodeHex` value provides. -/
def EncodeHex.enc (e : EncodeHex) : Encoder :=
  { Encode := e.Encode, Validate := e.Validate }

/-! ## SHA-256 and SHA-512 (the `crypto/sha256` / `crypto/sha512` hash
functions registered by `init()`).  Standard FIPS 180-4 definitions over
byte lists; word arithmetic is `Nat` reduced mod `2^32` / `2^64`. -/

def M32 : Nat := 4294967296

def M64 : Nat := 18446744073709551616

/-- Right rotation of a 32-bit word. -/
def rotr32 (x n : Nat) : Nat :=
  ((x >>> n) ||| (x <<< (32 - n))) % M32

/-- Right rotation of a 64-bit word. -/
def rotr64 (x n : Nat) : Nat :=
  ((x >>> n) ||| (x <<< (64 - n))) % M64

def K256 : List Nat :=[
  1116352408, 1899447441, 3049323471, 3921009573,
  961987163, 1508970993, 2453635748, 2870763221,
  3624381080, 310598401, 607225278, 1426881987,
  1925078388, 2162078206, 2614888103, 3248222580,
  3835390401, 4022224774, 264347078, 604807628,
  770255983, 1249150122, 1555081692, 1996064986,
  2554220882, 2821834349, 2952996808, 3210313671,
  3336571891, 3584528711, 113926993, 338241895,
  666307205, 773529912, 1294757372, 1396182291,
  1695183700, 1986661051, 2177026350, 2456956037,
  2730485921, 2820302411, 3259730800, 3345764771,
  3516065817, 3600352804, 4094571909, 275423344,
  430227734, 506948616, 659060556, 883997877,
  958139571, 1322822218, 1537002063, 1747873779,
  1955562222, 2024104815, 2227730452, 2361852424,
  2428436474, 2756734187, 3204031479, 3329325298]

def H256 : List Nat :=[
  1779033703, 3144134277, 1013904242, 2773480762,
  1359893119, 2600822924, 528734635, 1541459225]

def K512 : List Nat :=[
  4794697086780616226, 8158064640168781261, 13096744586834688815, 16840607885511220156,
  4131703408338449720, 6480981068601479193, 10538285296894168987, 12329834152419229976,
  15566598209576043074, 1334009975649890238, 2608012711638119052, 6128411473006802146,
  8268148722764581231, 9286055187155687089, 11230858885718282805, 13951009754708518548,
  16472876342353939154, 17275323862435702243, 1135362057144423861, 2597628984639134821,
  3308224258029322869, 5365058923640841347, 6679025012923562964, 8573033837759648693,
  10970295158949994411, 12119686244451234320, 12683024718118986047, 13788192230050041572,
  14330467153632333762, 15395433587784984357, 489312712824947311, 1452737877330783856,
  2861767655752347644, 3322285676063803686, 5560940570517711597, 5996557281743188959,
  7280758554555802590, 8532644243296465576, 9350256976987008742, 10552545826968843579,
  11727347734174303076, 12113106623233404929, 14000437183269869457, 14369950271660146224,
  15101387698204529176, 15463397548674623760, 17586052441742319658, 1182934255886127544,
  1847814050463011016, 2177327727835720531, 2830643537854262169, 3796741975233480872,
  4115178125766777443, 5681478168544905931, 6601373596472566643, 7507060721942968483,
  8399075790359081724, 8693463985226723168, 9568029438360202098, 10144078919501101548,
  10430055236837252648, 11840083180663258601, 13761210420658862357, 14299343276471374635,
  14566680578165727644, 15097957966210449927, 16922976911328602910, 17689382322260857208,
  500013540394364858, 748580250866718886, 1242879168328830382, 1977374033974150939,
  2944078676154940804, 3659926193048069267, 4368137639120453308, 4836135668995329356,
  5532061633213252278, 6448918945643986474, 6902733635092675308, 7801388544844847127]

def H512 : List Nat :=[
  7640891576956012808, 13503953896175478587, 4354685564936845355, 11912009170470909681,
  5840696475078001361, 11170449401992604703, 2270897969802886507, 6620516959819538809]

/-- Big-endian bytes of a word, most significant first, `k` bytes wide. -/
def beBytes (k : Nat) (n : Nat) : List Nat :=
  (List.range k).map (fun i => (n >>> (8 * (k - 1 - i))) % 256)

/-- Big-endian word assembled from `k` bytes of a list starting at `off`. -/
def beWord (k : Nat) (bs : List Nat) (off : Nat) : Nat :=
  (List.range k).foldl (fun acc i => acc * 256 + bs.getD (off + i) 0) 0

/-- SHA padding: append `0x80`, zeros, then the bit length in a `lenBytes`
wide big-endian field, reaching a multiple of the block size. -/
def shaPad (blockLen lenBytes : Nat) (msg : List Nat) : List Nat :=
  let l := msg.length
  let zeros := (blockLen - (l + 1 + lenBytes) % blockLen) % blockLen
  msg ++ 128 :: List.replicate zeros 0 ++ beBytes lenBytes (8 * l)

/-- Cut a list into `blockLen`-byte blocks (fuel is the list length, which
bounds the number of blocks). -/
def toBlocksAux (blockLen : Nat) : Nat → List Nat → List (List Nat)
  | 0, _ => []
  | _ + 1, [] => []
  | fuel + 1, l => l.take blockLen :: toBlocksAux blockLen fuel (l.drop blockLen)

def toBlocks (blockLen : Nat) (l : List Nat) : List (List Nat) :=
  toBlocksAux blockLen l.length l

/-- Message-schedule extension for SHA-256: repeatedly append the next word. -/
def sched256Aux : Nat → List Nat → List Nat
  | 0, w => w
  | fuel + 1, w =>
    let i := w.length
    let x15 := w.getD (i - 15) 0
    let x2 := w.getD (i - 2) 0
    let s0 := rotr32 x15 7 ^^^ rotr32 x15 18 ^^^ (x15 >>> 3)
    let s1 := rotr32 x2 17 ^^^ rotr32 x2 19 ^^^ (x2 >>> 10)
    sched256Aux fuel (w ++ [(w.getD (i - 16) 0 + s0 + w.getD (i - 7) 0 + s1) % M32])

/-- One SHA-256 compression round. -/
def round256 (w : List Nat) (st : List Nat) (i : Nat) : List Nat :=
  match st with
  | [a, b, c, d, e, f, g, h] =>
    let s1 := rotr32 e 6 ^^^ rotr32 e 11 ^^^ rotr32 e 25
    let ch := (e &&& f) ^^^ ((M32 - 1 - e) &&& g)
    let t1 := (h + s1 + ch + K256.getD i 0 + w.getD i 0) % M32
    let s0 := rotr32 a 2 ^^^ rotr32 a 13 ^^^ rotr32 a 22
    let mj := (a &&& b) ^^^ (a &&& c) ^^^ (b &&& c)
    let t2 := (s0 + mj) % M32
    [(t1 + t2) % M32, a, b, c, (d + t1) % M32, e, f, g]
  | st => st

/-- SHA-256 compression of one 64-byte block into the running hash. -/
def compress256 (h : List Nat) (block : List Nat) : List Nat :=
  let w16 := (List.range 16).map (fun i => beWord 4 block (4 * i))
  let w := sched256Aux 48 w16
  let st := (List.range 64).foldl (round256 w) h
  (h.zip st).map (fun p => (p.1 + p.2) % M32)

/-- SHA-256 of a byte list (the function `crypto/sha256` computes). -/
def sha256Bytes (msg : List Nat) : List Nat :=
  let blocks := toBlocks 64 (shaPad 64 8 msg)
  (blocks.foldl compress256 H256).foldr (fun wd acc => beBytes 4 wd ++ acc) []

/-- Message-schedule extension for SHA-512. -/
def sched512Aux : Nat → List Nat → List Nat
  | 0, w => w
  | fuel + 1, w =>
    let i := w.length
    let x15 := w.getD (i - 15) 0
    let x2 := w.getD (i - 2) 0
    let s0 := rotr64 x15 1 ^^^ rotr64 x15 8 ^^^ (x15 >>> 7)
    let s1 := rotr64 x2 19 ^^^ rotr64 x2 61 ^^^ (x2 >>> 6)
    sched512Aux fuel (w ++ [(w.getD (i - 16) 0 + s0 + w.getD (i - 7) 0 + s1) % M64])

/-- One SHA-512 compression round. -/
def round512 (w : List Nat) (st : List Nat) (i : Nat) : List Nat :=
  match st with
  | [a, b, c, d, e, f, g, h] =>
    let s1 := rotr64 e 14 ^^^ rotr64 e 18 ^^^ rotr64 e 41
    let ch := (e &&& f) ^^^ ((M64 - 1 - e) &&& g)
    let t1 := (h + s1 + ch + K512.getD i 0 + w.getD i 0) % M64
    let s0 := rotr64 a 28 ^^^ rotr64 a 34 ^^^ rotr64 a 39
    let mj := (a &&& b) ^^^ (a &&& c) ^^^ (b &&& c)
    let t2 := (s0 + mj) % M64
    [(t1 + t2) % M64, a, b, c, (d + t1) % M64, e, f, g]
  | st => st

/-- SHA-512 compression of one 128-byte block. -/
def compress512 (h : List Nat) (block : List Nat) : List Nat :=
  let w16 := (List.range 16).map (fun i => beWord 8 block (8 * i))
  let w := sched512Aux 64 w16
  let st := (List.range 80).foldl (round512 w) h
  (h.zip st).map (fun p => (p.1 + p.2) % M64)

/-- SHA-512 of a byte list (the function `crypto/sha512` computes). -/
def sha512Bytes (msg : List Nat) : List Nat :=
  let blocks := toBlocks 128 (shaPad 128 16 msg)
  (blocks.foldl compress512 H512).foldr (fun wd acc => beBytes 8 wd ++ acc) []


/-! ## Hash accumulators (the `hash.Hash` interface) -/

/-- Description of one `hash.Hash` implementation: its reported `Size()`, the
function from all bytes written to the `Sum(nil)` output, and the error (if
any) its `Write` reports for a given accumulated state and chunk.  The
documented `hash.Hash` contract says `Write` never returns an error, but
reader.go and writer.go defend against one, so the model keeps the field. -/
structure HashImpl where
  size : Int
  fn : List Nat → List Nat
  writeErr : List Nat → List Nat → Option GoErr

/-- A live accumulator: an implementation plus the bytes written so far. -/
structure HashSt where
  impl : HashImpl
  data : List Nat

/-- The `Sum(nil)` call: hash of everything written so far.  Per the
`hash.Hash` contract, `Sum` does not change the underlying state. -/
def HashSt.Sum (h : HashSt) : List Nat :=
  h.impl.fn h.data

/-- The `Size()` call. -/
def HashSt.Size (h : HashSt) : Int :=
  h.impl.size

/-- The `Write` call: the chunk is absorbed into the running state and the
implementation may (contract-violatingly) report an error. -/
def HashSt.write (h : HashSt) (p : List Nat) : HashSt × Option GoErr :=
  ({ h with data := h.data ++ p }, h.impl.writeErr h.data p)

/-- The built-in `crypto/sha256` hash: 32-byte sums, never fails a write. -/
def sha256Impl : HashImpl :=
  { size := 32, fn := sha256Bytes, writeErr := fun _ _ => none }

/-- The built-in `crypto/sha512` hash: 64-byte sums, never fails a write. -/
def sha512Impl : HashImpl :=
  { size := 64, fn := sha512Bytes, writeErr := fun _ _ => none }

/-! ## Algorithm registry (algorithm.go) -/

/-- algorithm.go `Algorithm`: a lightweight handle holding only the name. -/
structure Algorithm where
  name : String
  deriving DecidableEq, Repr

/-- algorithm.go `algorithmInfo`: the registered data per algorithm.  The
`newFn` field models the Go `func() hash.Hash` field: `none` is a nil
function value, `some none` a function returning a nil hash, and
`some (some impl)` a function producing a fresh accumulator for `impl`
(calls are deterministic in the model). -/
structure AlgorithmInfo where
  name : String
  size : Int
  enc : Option Encoder
  newFn : Option (Option HashImpl)

/-- The state of the global `algorithms` map, as an association list keyed
by name (registration refuses duplicates, so keys are unique). -/
abbrev Registry := List (String × AlgorithmInfo)

/-- Lookup in the `algorithms` map. -/
def lookupAssoc : Registry → String → Option AlgorithmInfo
  | [], _ => none
  | (k, v) :: rest, n => if k == n then some v else lookupAssoc rest n

/-- Character class `[a-z0-9]` of the registry naming grammar. -/
def isAlgChar (c : Char) : Bool :=
  (decide ('a' ≤ c) && decide (c ≤ 'z')) || (decide ('0' ≤ c) && decide (c ≤ '9'))

/-- Character class `[+._-]` of the registry naming grammar. -/
def isSepChar (c : Char) : Bool :=
  c == '+' || c == '.' || c == '_' || c == '-'

/-- Recognizer for the anchored regular expression
`^[a-z0-9]+([+._-][a-z0-9]+)*$` (algorithm.go `algorithmRegexp`).  The
Bool argument is the scanner state: `false` at the start of a segment
(at least one `[a-z0-9]` still required), `true` inside a segment. -/
def algNameDFA : List Char → Bool → Bool
  | [], inSeg => inSeg
  | c :: cs, false => isAlgChar c && algNameDFA cs true
  | c :: cs, true =>
    if isAlgChar c then algNameDFA cs true
    else isSepChar c && algNameDFA cs false

/-- algorithm.go `algorithmRegexp.MatchString`. -/
def algorithmRegexpMatch (s : String) : Bool :=
  algNameDFA s.data false

/-- The registered record for `sha256` (established by `init()`; the
`example`s after `initRegistry` check it is exactly what registration
stores). -/
def aiSHA256 : AlgorithmInfo :=
  { name := "sha256", size := 32, enc := some (EncodeHex.enc { Len := 64 }),
    newFn := some (some sha256Impl) }

/-- The registered record for `sha512`. -/
def aiSHA512 : AlgorithmInfo :=
  { name := "sha512", size := 64, enc := some (EncodeHex.enc { Len := 128 }),
    newFn := some (some sha512Impl) }

/-- algorithm.go package variable `SHA256`. -/
def SHA256 : Algorithm := { name := "sha256" }

/-- algorithm.go package variable `SHA512`. -/
def SHA512 : Algorithm := { name := "sha512" }

/-- algorithm.go `Canonical = SHA256` (set by `init()`). -/
def Canonical : Algorithm := SHA256

/-- algorithm.go `algorithmInfoLookup`: the hardcoded fast path for the two
built-ins, the empty-name failure, then the map. -/
def algorithmInfoLookup (reg : Registry) (name : String) :
    Except GoErr (AlgorithmInfo × Algorithm) :=
  if name = "sha256" then .ok (aiSHA256, SHA256)
  else if name = "sha512" then .ok (aiSHA512, SHA512)
  else if name = "" then .error .algorithmInvalidName
  else
    match lookupAssoc reg name with
    | some a => .ok (a, { name := a.name })
    | none => .error (.wrap .algorithmUnknown name)

/-- algorithm.go `algorithmInfoRegister`: the checks in source order, then
the store into the map. -/
def algorithmInfoRegister (reg : Registry) (name : String) (enc : Option Encoder)
    (newFn : Option (Option HashImpl)) :
    Except GoErr (AlgorithmInfo × Algorithm) × Registry :=
  if (lookupAssoc reg name).isSome then
    (.error (.wrap .algorithmExists name), reg)
  else if !(algorithmRegexpMatch name) then
    (.error (.wrap .algorithmInvalidName name), reg)
  else
    match enc with
    | none => (.error (.wrap .encodeInterfaceInvalid name), reg)
    | some e =>
      match newFn with
      | none => (.error (.wrap .hashFunctionInvalid name), reg)
      | some fnRes =>
        match fnRes with
        | none => (.error (.wrap .hashFunctionInvalid name), reg)
        | some hasher =>
          if hasher.size ≤ 0 then (.error (.wrap .hashFunctionInvalid name), reg)
          else
            let ai : AlgorithmInfo :=
              { name := name, size := hasher.size, enc := some e, newFn := some fnRes }
            (.ok (ai, { name := name }), (name, ai) :: reg)

/-- The registry as `init()` leaves it: `sha256` then `sha512` registered
into the empty map (errors ignored, as in the source). -/
def initRegistry : Registry :=
  (algorithmInfoRegister
    (algorithmInfoRegister [] "sha256" (some (EncodeHex.enc { Len := 64 }))
      (some (some sha256Impl))).2
    "sha512" (some (EncodeHex.enc { Len := 128 })) (some (some sha512Impl))).2

/-! ## Digest value (digest.go) -/

/-- digest.go `Digest`: algorithm name plus encoded value.  The zero value
has both fields empty. -/
structure Digest where
  alg : String
  enc : String
  deriving DecidableEq, Repr

/-- digest.go `Digest.Equal`: both components compared exactly. -/
def Digest.Equal (d cmp : Digest) : Bool :=
  d.alg == cmp.alg && d.enc == cmp.enc

/-- digest.go `Digest.IsZero`. -/
def Digest.IsZero (d : Digest) : Bool :=
  d.alg == "" && d.enc == ""

/-- digest.go `Digest.Encoded`. -/
def Digest.Encoded (d : Digest) : String :=
  d.enc

/-- digest.go `Digest.String` (named `string` here because the method shares
its Go name with the string type): empty when either component is empty,
otherwise `alg:enc`. -/
def Digest.string (d : Digest) : String :=
  if d.alg == "" || d.enc == "" then "" else d.alg ++ ":" ++ d.enc

/-- Go `strings.Cut(s, ":")` on the character list: split at the first
colon, keeping the rest (later colons included) whole. -/
def cutColonL : List Char → Option (List Char × List Char)
  | [] => none
  | c :: cs =>
    if c = ':' then some ([], cs)
    else
      match cutColonL cs with
      | none => none
      | some (a, b) => some (c :: a, b)

/-- Go `strings.Cut(s, ":")` (the `found` result is the `some` case). -/
def stringsCut (s : String) : Option (String × String) :=
  match cutColonL s.data with
  | none => none
  | some (a, b) => some (String.mk a, String.mk b)

/-- digest.go `Parse`: empty input gives the zero digest; otherwise cut at
the first colon (else `ErrDigestInvalid`), resolve the algorithm part
(propagating the lookup error), and validate the encoded part against the
resolved algorithm's encoder (else `ErrEncodingInvalid`). -/
def Parse (reg : Registry) (s : String) : Except GoErr Digest :=
  if s == "" then .ok { alg := "", enc := "" }
  else
    match stringsCut s with
    | none => .error (.wrap .digestInvalid s)
    | some (algPart, encPart) =>
      match algorithmInfoLookup reg algPart with
      | .error e => .error e
      | .ok (ai, _) =>
        match ai.enc with
        | none => .error (.wrap .encodingInvalid encPart)
        | some e =>
          if e.Validate encPart then .ok { alg := algPart, enc := encPart }
          else .error (.wrap .encodingInvalid encPart)

/-- digest.go `Digest.UnmarshalText`: parse, and only on success replace the
receiver.  The result pairs the receiver's new state with the returned
error. -/
def Digest.UnmarshalText (reg : Registry) (d : Digest) (text : String) :
    Digest × Option GoErr :=
  match Parse reg text with
  | .error e => (d, some e)
  | .ok nd => (nd, none)

/-- digest.go `NewDigest`: resolve the algorithm, require a non-nil hash
whose size matches the registered size, and encode its current sum.  (The
nil-encoder branch is unreachable for registry-produced records; the Go
code would crash there.) -/
def NewDigest (reg : Registry) (alg : Algorithm) (h : Option HashSt) :
    Except GoErr Digest :=
  match algorithmInfoLookup reg alg.name with
  | .error e => .error e
  | .ok (ai, _) =>
    match h with
    | none => .error .hashInterfaceInvalid
    | some hs =>
      if hs.Size ≠ ai.size then .error .hashInterfaceInvalid
      else
        match ai.enc with
        | none => .error .encodeInterfaceInvalid
        | some e =>
          match e.Encode hs.Sum with
          | .error er => .error er
          | .ok encStr => .ok { alg := alg.name, enc := encStr }

/-! ## Pass-through Writer (writer.go) and Reader (reader.go) -/

/-- The in-memory byte sink a Writer may pass writes through to (the role
`bytes.Buffer` plays in the tests): it accepts every byte and never
errors.  `none` is a nil `io.Writer`. -/
abbrev WSink := Option (List Nat)

/-- writer.go `Writer`. -/
structure Writer where
  w : WSink
  alg : Algorithm
  hash : Option HashSt

/-- The hash constructor an Algorithm handle resolves to through the
registry, if any (the meaning of the `newFn`-availability test in the
constructors of writer.go / reader.go). -/
def resolveNewFn (reg : Registry) (alg : Algorithm) : Option HashImpl :=
  match algorithmInfoLookup reg alg.name with
  | .ok (ai, _) =>
    match ai.newFn with
    | some (some impl) => some impl
    | _ => none
  | .error _ => none

/-- writer.go `NewWriter`: fall back to `Canonical` when the algorithm is
the zero value or does not resolve to a hash constructor, then bind a
fresh accumulator. -/
def NewWriter (reg : Registry) (w : WSink) (alg : Algorithm) : Writer :=
  let algR := if alg.name == "" || (resolveNewFn reg alg).isNone then Canonical else alg
  { w := w, alg := algR,
    hash := (resolveNewFn reg algR).map (fun impl => { impl := impl, data := [] }) }

/-- writer.go `Writer.Digest` (named `digest` to keep the method distinct
from the `Digest` type). -/
def Writer.digest (reg : Registry) (w : Writer) : Except GoErr Digest :=
  match w.hash with
  | none => .error .writerInvalid
  | some _ => NewDigest reg w.alg w.hash

/-- writer.go `Writer.Write`: pass the bytes to the sink if present (the
in-memory sink accepts them all), and feed the accepted bytes to the
accumulator, joining a hash-write failure onto any sink error. -/
def Writer.write (w : Writer) (p : List Nat) : (Int × Option GoErr) × Writer :=
  match w.hash with
  | none => ((0, some .writerInvalid), w)
  | some hs =>
    let sunk : WSink × Int × Option GoErr :=
      match w.w with
      | some buf => (some (buf ++ p), (p.length : Int), none)
      | none => (none, (p.length : Int), none)
    let w1 : Writer := { w with w := sunk.1 }
    let n := sunk.2.1
    let err := sunk.2.2
    if n ≤ 0 then ((n, err), w1)
    else
      let hres := hs.write (p.take n.toNat)
      let err2 :=
        match hres.2 with
        | some he =>
          match err with
          | some e0 => some (GoErr.join e0 he)
          | none => some he
        | none => err
      ((n, err2), { w1 with hash := some hres.1 })

/-- writer.go `Writer.Verify`: any digest error collapses to `false`. -/
def Writer.verify (reg : Registry) (w : Writer) (cmp : Digest) : Bool :=
  match Writer.digest reg w with
  | .error _ => false
  | .ok d => !cmp.IsZero && d.Equal cmp

/-- The `Digest()` method as a state transformer: it only calls `Sum`,
which by the `hash.Hash` contract leaves the accumulator untouched, and
the method has a value receiver, so the Writer comes back unchanged. -/
def Writer.digestSt (reg : Registry) (w : Writer) :
    Except GoErr Digest × Writer :=
  (Writer.digest reg w, w)

/-- Fold a sequence of `Write` calls, keeping only the evolving state. -/
def Writer.writeMany (w : Writer) (ps : List (List Nat)) : Writer :=
  ps.foldl (fun acc p => (Writer.write acc p).2) w

/-- A caller-supplied `io.Reader`, modelled as the script of results its
successive `Read` calls produce: each call yields the bytes put into the
buffer together with the error returned alongside them.  An exhausted
script behaves as end of stream. -/
abbrev Source := List (List Nat × Option GoErr)

/-- reader.go `Reader`. -/
structure Reader where
  r : Option Source
  alg : Algorithm
  hash : Option HashSt

/-- reader.go `NewReader`: same fallback rule as `NewWriter`. -/
def NewReader (reg : Registry) (r : Option Source) (alg : Algorithm) : Reader :=
  let algR := if alg.name == "" || (resolveNewFn reg alg).isNone then Canonical else alg
  { r := r, alg := algR,
    hash := (resolveNewFn reg algR).map (fun impl => { impl := impl, data := [] }) }

/-- reader.go `Reader.Digest`. -/
def Reader.digest (reg : Registry) (r : Reader) : Except GoErr Digest :=
  match r.hash with
  | none => .error .readerInvalid
  | some _ => NewDigest reg r.alg r.hash

/-- reader.go `Reader.Read`: fail when no source; otherwise take the
source's next result, and when it produced bytes feed exactly those bytes
to the accumulator before returning, joining the source error with any
hash-write error.  (The hash-less branch with a live source is unreachable
through the public constructors; the Go code would crash there.) -/
def Reader.read (rd : Reader) : (Int × Option GoErr) × Reader :=
  match rd.r with
  | none => ((0, some .readerInvalid), rd)
  | some [] => ((0, some (.str "EOF")), rd)
  | some ((bs, e) :: rest) =>
    let n : Int := (bs.length : Int)
    let rd1 : Reader := { rd with r := some rest }
    if n ≤ 0 then ((n, e), rd1)
    else
      match rd.hash with
      | none => ((n, e), rd1)
      | some hs =>
        let hres := hs.write bs
        let err :=
          match hres.2 with
          | some he =>
            match e with
            | some se => some (GoErr.join se he)
            | none => some he
          | none => e
        ((n, err), { rd1 with hash := some hres.1 })

/-- reader.go `Reader.Verify`. -/
def Reader.verify (reg : Registry) (r : Reader) (cmp : Digest) : Bool :=
  match Reader.digest reg r with
  | .error _ => false
  | .ok d => !cmp.IsZero && d.Equal cmp

/-- The `Digest()` method of reader.go as a state transformer (see
`Writer.digestSt`). -/
def Reader.digestSt (reg : Registry) (r : Reader) :
    Except GoErr Digest × Reader :=
  (Reader.digest reg r, r)

/-- algorithm.go `Algorithm.Digester`: reject the zero value, otherwise a
fresh pass-through Writer with no sink. -/
def Algorithm.Digester (reg : Registry) (a : Algorithm) : Except GoErr Writer :=
  if a.name == "" then .error .algorithmInvalidName
  else .ok (NewWriter reg none a)

/-- algorithm.go `Algorithm.FromBytes`: create a Digester, write the whole
input, finalize. -/
def Algorithm.FromBytes (reg : Registry) (a : Algorithm) (p : List Nat) :
    Except GoErr Digest :=
  match a.Digester reg with
  | .error e => .error e
  | .ok dr =>
    let res := Writer.write dr p
    match res.1.2 with
    | some e => .error e
    | none => Writer.digest reg res.2

/-- Character class `[A-Za-z0-9=_-]` of the digest grammar's encoded part. -/
def encValueChar (c : Char) : Bool :=
  (decide ('a' ≤ c) && decide (c ≤ 'z')) || (decide ('A' ≤ c) && decide (c ≤ 'Z')) ||
    (decide ('0' ≤ c) && decide (c ≤ '9')) || c == '=' || c == '_' || c == '-'

/-- digest.go `DigestRegexpParts` as an anchored recognizer: the full
string is `<algorithm-name>:<encoded-value>` with the algorithm part in
the registry naming grammar and a non-empty encoded part over
`[A-Za-z0-9=_-]`.  (Since neither part may contain a colon, cutting at the
first colon is equivalent to the regular expression.) -/
def digestGrammarMatch (s : String) : Bool :=
  match cutColonL s.data with
  | none => false
  | some (a, b) => algNameDFA a false && !b.isEmpty && b.all encValueChar

/-! ## Concrete registry states used by witnesses and counterexamples -/

/-- A contract-conforming `hash.Hash` stand-in with 32-byte sums, used to
register custom algorithms in concrete registry states. -/
def mockImpl32 : HashImpl :=
  { size := 32, fn := fun _ => List.replicate 32 0, writeErr := fun _ _ => none }

/-- The registry after `AlgorithmRegister("foo", EncodeHex{Len: 10}, f)`
succeeds on the initial registry, where `f` produces `mockImpl32`
accumulators: a registered algorithm whose encoder expects 10 characters
while its hash sums are 32 bytes. -/
def regFoo : Registry :=
  (algorithmInfoRegister initRegistry "foo" (some (EncodeHex.enc { Len := 10 }))
    (some (some mockImpl32))).2

/-- The registry after registering the compatible custom algorithm `mok`
(32-byte contract-conforming hash, 64-character hex encoder) on the
initial registry. -/
def regMok : Registry :=
  (algorithmInfoRegister initRegistry "mok" (some (EncodeHex.enc { Len := 64 }))
    (some (some mockImpl32))).2

/-- The record `regMok` stores for `mok`. -/
def aiMok : AlgorithmInfo :=
  { name := "mok", size := 32, enc := some (EncodeHex.enc { Len := 64 }),
    newFn := some (some mockImpl32) }

/-- A `hash.Hash` stand-in whose writes always report an error, violating
the interface contract the way reader.go defends against. -/
def mockImplErr : HashImpl :=
  { size := 32, fn := fun _ => List.replicate 32 0,
    writeErr := fun _ _ => some (.str "hashfail") }

/-- A Reader over a one-shot source that yields `[7]` alongside a source
error, digesting into an accumulator whose writes fail. -/
def rdErr : Reader :=
  { r := some [([7], some (.str "boom"))], alg := { name := "mok" },
    hash := some { impl := mockImplErr, data := [] } }

/-! ## Supporting lemmas -/

example : (algorithmInfoRegister [] "sha256" (some (EncodeHex.enc { Len := 64 }))
    (some (some sha256Impl))).1 = .ok (aiSHA256, SHA256) := rfl

example : (algorithmInfoRegister [("sha256", aiSHA256)] "sha512"
    (some (EncodeHex.enc { Len := 128 })) (some (some sha512Impl))).1
    = .ok (aiSHA512, SHA512) := rfl

example : initRegistry = [("sha512", aiSHA512), ("sha256", aiSHA256)] := rfl

theorem hexDigitChar_isHexChar : ∀ n : Nat, n < 16 → isHexChar (hexDigitChar n) = true := by
  decide

theorem byteToHexChars_all (b : Nat) :
    ∀ c ∈ byteToHexChars b, isHexChar c = true := by
  intro c hc
  simp only [byteToHexChars, List.mem_cons, List.mem_singleton, List.not_mem_nil] at hc
  rcases hc with rfl | rfl | h
  · exact hexDigitChar_isHexChar _ (Nat.mod_lt _ (by decide))
  · exact hexDigitChar_isHexChar _ (Nat.mod_lt _ (by decide))
  · cases h

theorem hexChars_length (p : List Nat) : (hexChars p).length = 2 * p.length := by
  induction p with
  | nil => rfl
  | cons b bs ih =>
    simp [hexChars, byteToHexChars, ih, List.length_cons]
    omega

theorem hexChars_all (p : List Nat) : ∀ c ∈ hexChars p, isHexChar c = true := by
  induction p with
  | nil => intro c hc; cases hc
  | cons b bs ih =>
    intro c hc
    simp only [hexChars, List.mem_append] at hc
    rcases hc with hc | hc
    · exact byteToHexChars_all b c hc
    · exact ih c hc

theorem sprintfStarX_exact (p : List Nat) :
    sprintfStarX (2 * (p.length : Int)) p = String.mk (hexChars p) := by
  show String.mk (List.replicate
      ((2 * (p.length : Int)) - ((hexChars p).length : Int)).toNat ' ' ++ hexChars p) =
    String.mk (hexChars p)
  rw [hexChars_length]
  push_cast
  simp

theorem EncodeHex.Encode_hexChars (L : Int) (p : List Nat) (h : 2 * (p.length : Int) = L) :
    EncodeHex.Encode { Len := L } p = .ok (String.mk (hexChars p)) := by
  subst h
  simp [EncodeHex.Encode, sprintfStarX_exact]

theorem isHex_mk_hexChars (p : List Nat) : isHex (String.mk (hexChars p)) = true := by
  simp only [isHex, List.all_eq_true]
  exact hexChars_all p

theorem length_mk_hexChars (p : List Nat) :
    (String.mk (hexChars p)).length = 2 * p.length := by
  show (hexChars p).length = 2 * p.length
  exact hexChars_length p

theorem EncodeHex.Validate_hexChars (L : Int) (p : List Nat) (h : 2 * (p.length : Int) = L) :
    EncodeHex.Validate { Len := L } (String.mk (hexChars p)) = true := by
  simp only [EncodeHex.Validate, Bool.and_eq_true, decide_eq_true_eq, isHex_mk_hexChars,
    and_true, length_mk_hexChars]
  push_cast
  omega

theorem algNameDFA_chars : ∀ (cs : List Char) (b : Bool), algNameDFA cs b = true →
    ∀ c ∈ cs, isAlgChar c = true ∨ isSepChar c = true := by
  intro cs
  induction cs with
  | nil => intro b _ c hc; cases hc
  | cons x xs ih =>
    intro b hdfa c hc
    rcases List.mem_cons.mp hc with rfl | hc
    · cases b with
      | false =>
        simp only [algNameDFA, Bool.and_eq_true] at hdfa
        exact Or.inl hdfa.1
      | true =>
        simp only [algNameDFA] at hdfa
        by_cases hx : isAlgChar c = true
        · exact Or.inl hx
        · rw [if_neg hx] at hdfa
          exact Or.inr (Bool.and_eq_true .. ▸ hdfa).1
    · cases b with
      | false =>
        simp only [algNameDFA, Bool.and_eq_true] at hdfa
        exact ih true hdfa.2 c hc
      | true =>
        simp only [algNameDFA] at hdfa
        by_cases hx : isAlgChar x = true
        · rw [if_pos hx] at hdfa
          exact ih true hdfa c hc
        · rw [if_neg hx] at hdfa
          exact ih false (Bool.and_eq_true .. ▸ hdfa).2 c hc

theorem algName_no_colon (s : String) (h : algorithmRegexpMatch s = true) :
    ':' ∉ s.data := by
  intro hmem
  rcases algNameDFA_chars s.data false h ':' hmem with hc | hc
  · exact absurd hc (by decide)
  · exact absurd hc (by decide)

theorem algorithmRegexpMatch_ne_empty (s : String) (h : algorithmRegexpMatch s = true) :
    s ≠ "" := by
  intro he
  subst he
  exact absurd h (by decide)

theorem cutColonL_append (a b : List Char) (h : ':' ∉ a) :
    cutColonL (a ++ ':' :: b) = some (a, b) := by
  induction a with
  | nil => rfl
  | cons x xs ih =>
    have hx : x ≠ ':' := fun hx => h (hx ▸ List.mem_cons_self x xs)
    simp only [List.cons_append, cutColonL, List.append_eq, if_neg hx,
      ih (fun hm => h (List.mem_cons_of_mem x hm))]

theorem stringsCut_concat (a e : String) (h : ':' ∉ a.data) :
    stringsCut (a ++ ":" ++ e) = some (a, e) := by
  unfold stringsCut
  have hdata : (a ++ ":" ++ e).data = a.data ++ ':' :: e.data := by
    simp [String.data_append]
  rw [hdata, cutColonL_append _ _ h]

theorem concat_colon_ne_empty (a e : String) : (a ++ ":" ++ e) ≠ "" := by
  intro hc
  have : (a ++ ":" ++ e).data = [] := hc ▸ rfl
  simp [String.data_append] at this

theorem Writer.write_clean (w : Writer) (hs : HashSt) (p : List Nat)
    (hh : w.hash = some hs) (hclean : ∀ d q, hs.impl.writeErr d q = none) :
    Writer.write w p = (((p.length : Int), none),
      { w := w.w.map (· ++ p), alg := w.alg,
        hash := some { impl := hs.impl, data := hs.data ++ p } }) := by
  unfold Writer.write
  rw [hh]
  cases p with
  | nil =>
    cases hw : w.w <;>
      simp [hw, HashSt.write, hclean]
  | cons a as =>
    have hn : ¬ (((a :: as).length : Int) ≤ 0) := by
      simp [List.length_cons]
    cases hw : w.w <;>
      simp [hw, HashSt.write, hclean, hn, List.take_length]

theorem NewDigest_hex (reg : Registry) (alg : Algorithm) (ai : AlgorithmInfo)
    (hA : Algorithm) (impl : HashImpl) (data : List Nat)
    (hlook : algorithmInfoLookup reg alg.name = .ok (ai, hA))
    (hsz : impl.size = ai.size)
    (henc : ai.enc = some (EncodeHex.enc { Len := 2 * ai.size }))
    (hsum : ((impl.fn data).length : Int) = ai.size) :
    NewDigest reg alg (some { impl := impl, data := data }) =
      .ok { alg := alg.name, enc := String.mk (hexChars (impl.fn data)) } := by
  have hEnc2 : (EncodeHex.enc { Len := 2 * ai.size }).Encode
      (HashSt.Sum { impl := impl, data := data }) =
      .ok (String.mk (hexChars (impl.fn data))) :=
    EncodeHex.Encode_hexChars (2 * ai.size) (impl.fn data) (by rw [hsum])
  have hns : ¬ (HashSt.Size { impl := impl, data := data } ≠ ai.size) := by
    simp [HashSt.Size, hsz]
  unfold NewDigest
  rw [hlook]
  dsimp only
  rw [if_neg hns, henc]
  dsimp only
  rw [hEnc2]

theorem mk_hexChars_ne_empty (q : List Nat) (h : q ≠ []) :
    String.mk (hexChars q) ≠ "" := by
  intro hc
  have hd := congrArg String.data hc
  simp only [String.data] at hd
  have hl := hexChars_length q
  rw [hd] at hl
  simp only [List.length_nil] at hl
  exact h (List.length_eq_zero.mp (by omega))

theorem Digest.string_of_ne (name s : String) (h1 : name ≠ "") (h2 : s ≠ "") :
    Digest.string { alg := name, enc := s } = name ++ ":" ++ s := by
  unfold Digest.string
  rw [if_neg]
  simp [h1, h2]

theorem Parse_hex (reg : Registry) (name : String) (q : List Nat) (ai : AlgorithmInfo)
    (hA : Algorithm)
    (hgram : algorithmRegexpMatch name = true)
    (hlook : algorithmInfoLookup reg name = .ok (ai, hA))
    (henc : ai.enc = some (EncodeHex.enc { Len := 2 * ai.size }))
    (hlen : (q.length : Int) = ai.size) :
    Parse reg (name ++ ":" ++ String.mk (hexChars q)) =
      .ok { alg := name, enc := String.mk (hexChars q) } := by
  have hcut := stringsCut_concat name (String.mk (hexChars q)) (algName_no_colon name hgram)
  have hval : (EncodeHex.enc { Len := 2 * ai.size }).Validate (String.mk (hexChars q)) = true :=
    EncodeHex.Validate_hexChars (2 * ai.size) q (by omega)
  unfold Parse
  rw [if_neg (fun hbeq =>
    concat_colon_ne_empty name (String.mk (hexChars q)) (beq_iff_eq.mp hbeq))]
  rw [hcut]
  dsimp only
  rw [hlook]
  dsimp only
  rw [henc]
  dsimp only
  rw [if_pos hval]

/-! ## Claim C1 -/

theorem resolveNewFn_of_lookup (reg : Registry) (A : Algorithm) (ai : AlgorithmInfo)
    (hA : Algorithm) (impl : HashImpl)
    (hlook : algorithmInfoLookup reg A.name = .ok (ai, hA))
    (hfn : ai.newFn = some (some impl)) :
    resolveNewFn reg A = some impl := by
  unfold resolveNewFn
  rw [hlook]
  dsimp only
  rw [hfn]

theorem NewWriter_resolved (reg : Registry) (w : WSink) (A : Algorithm) (impl : HashImpl)
    (hname : A.name ≠ "") (hres : resolveNewFn reg A = some impl) :
    NewWriter reg w A = { w := w, alg := A, hash := some { impl := impl, data := [] } } := by
  unfold NewWriter
  simp [hres, beq_eq_false_iff_ne.mpr hname]

theorem NewReader_resolved (reg : Registry) (r : Option Source) (A : Algorithm) (impl : HashImpl)
    (hname : A.name ≠ "") (hres : resolveNewFn reg A = some impl) :
    NewReader reg r A = { r := r, alg := A, hash := some { impl := impl, data := [] } } := by
  unfold NewReader
  simp [hres, beq_eq_false_iff_ne.mpr hname]

theorem FromBytes_hex (reg : Registry) (A : Algorithm) (ai : AlgorithmInfo)
    (hA : Algorithm) (impl : HashImpl) (b : List Nat)
    (hgram : algorithmRegexpMatch A.name = true)
    (hlook : algorithmInfoLookup reg A.name = .ok (ai, hA))
    (henc : ai.enc = some (EncodeHex.enc { Len := 2 * ai.size }))
    (hfn : ai.newFn = some (some impl))
    (hsz : impl.size = ai.size)
    (hsum : ∀ d, ((impl.fn d).length : Int) = ai.size)
    (hclean : ∀ d q, impl.writeErr d q = none) :
    Algorithm.FromBytes reg A b =
      .ok { alg := A.name, enc := String.mk (hexChars (impl.fn b)) } := by
  have hname : A.name ≠ "" := algorithmRegexpMatch_ne_empty A.name hgram
  have hnb : (A.name == "") = false := beq_eq_false_iff_ne.mpr hname
  have hres := resolveNewFn_of_lookup reg A ai hA impl hlook hfn
  have hW := NewWriter_resolved reg none A impl hname hres
  have hwrite := Writer.write_clean
    { w := none, alg := A, hash := some { impl := impl, data := [] } }
    { impl := impl, data := [] } b rfl hclean
  simp only [List.nil_append, Option.map_none'] at hwrite
  unfold Algorithm.FromBytes Algorithm.Digester
  rw [if_neg (by simp [hnb])]
  dsimp only
  rw [hW, hwrite]
  dsimp only
  unfold Writer.digest
  dsimp only
  exact NewDigest_hex reg A ai hA impl b hlook hsz henc (hsum b)


/-- C1 (amended): for every registered algorithm whose hash accumulator
honours the `hash.Hash` contract (sums of the declared size, writes never
fail) and whose encoder is the hex encoder of the matching length — as
both built-ins are — `FromBytes` succeeds, `Parse` of the rendered string
succeeds, and the parsed digest is `Equal` to the original. -/
theorem c1_fromBytes_roundtrip (reg : Registry) (A : Algorithm) (ai : AlgorithmInfo)
    (hA : Algorithm) (impl : HashImpl) (b : List Nat)
    (hgram : algorithmRegexpMatch A.name = true)
    (hlook : algorithmInfoLookup reg A.name = .ok (ai, hA))
    (henc : ai.enc = some (EncodeHex.enc { Len := 2 * ai.size }))
    (hfn : ai.newFn = some (some impl))
    (hsz : impl.size = ai.size)
    (hpos : 0 < ai.size)
    (hsum : ∀ d, ((impl.fn d).length : Int) = ai.size)
    (hclean : ∀ d q, impl.writeErr d q = none) :
    ∃ d, Algorithm.FromBytes reg A b = .ok d ∧
      Parse reg (Digest.string d) = .ok d ∧ d.Equal d = true := by
  have hname : A.name ≠ "" := algorithmRegexpMatch_ne_empty A.name hgram
  have hqne : impl.fn b ≠ [] := by
    intro h0
    have := hsum b
    rw [h0] at this
    simp at this
    omega
  refine ⟨{ alg := A.name, enc := String.mk (hexChars (impl.fn b)) }, ?_, ?_, ?_⟩
  · exact FromBytes_hex reg A ai hA impl b hgram hlook henc hfn hsz hsum hclean
  · rw [Digest.string_of_ne _ _ hname (mk_hexChars_ne_empty _ hqne)]
    exact Parse_hex reg A.name (impl.fn b) ai hA hgram hlook henc (hsum b)
  · simp [Digest.Equal]

/-- C1 counterexample: the claim as stated fails on the code.  Registering
`"foo"` with a 10-character hex encoder over a 32-byte hash succeeds (so
`foo` is a registered algorithm), yet `FromBytes` on it fails with
`EncodingInvalid` instead of succeeding. -/
theorem c1_counterexample :
    (algorithmInfoRegister initRegistry "foo" (some (EncodeHex.enc { Len := 10 }))
      (some (some mockImpl32))).1 =
      .ok ({ name := "foo", size := 32, enc := some (EncodeHex.enc { Len := 10 }),
             newFn := some (some mockImpl32) }, { name := "foo" }) ∧
    Algorithm.FromBytes regFoo { name := "foo" } [] = .error .encodingInvalid := by
  exact ⟨rfl, rfl⟩

/-- C1 witness: the amended round-trip instantiated at the registered
algorithm `mok` and the bytes `[1, 2]`. -/
theorem c1_witness :
    algorithmRegexpMatch "mok" = true ∧
    (∃ d, Algorithm.FromBytes regMok { name := "mok" } [1, 2] = .ok d ∧
      Parse regMok (Digest.string d) = .ok d ∧ d.Equal d = true) :=
  ⟨by decide,
    c1_fromBytes_roundtrip regMok { name := "mok" } aiMok { name := "mok" } mockImpl32 [1, 2]
      (by decide) rfl rfl rfl rfl (by decide)
      (fun d => by simp [mockImpl32, aiMok]) (fun _ _ => rfl)⟩

/-! ## Claim C2 -/

theorem errorIs_wrap (x : GoErr) (m : String) (t : GoErr) (h : GoErr.wrap x m ≠ t) :
    errorIs (.wrap x m) t = errorIs x t := by
  simp [errorIs, beq_eq_false_iff_ne.mpr h]

theorem algorithmInfoLookup_error (reg : Registry) (name : String) (er : GoErr)
    (h : algorithmInfoLookup reg name = .error er) :
    er = .algorithmInvalidName ∨ er = .wrap .algorithmUnknown name := by
  unfold algorithmInfoLookup at h
  by_cases h1 : name = "sha256"
  · rw [if_pos h1] at h
    cases h
  · rw [if_neg h1] at h
    by_cases h2 : name = "sha512"
    · rw [if_pos h2] at h
      cases h
    · rw [if_neg h2] at h
      by_cases h3 : name = ""
      · rw [if_pos h3] at h
        injection h with h'
        exact Or.inl h'.symm
      · rw [if_neg h3] at h
        rcases hla : lookupAssoc reg name with _ | a
        · rw [hla] at h
          dsimp only at h
          injection h with h'
          exact Or.inr h'.symm
        · rw [hla] at h
          cases h

theorem Parse_error_cases (reg : Registry) (s : String) (er : GoErr)
    (h : Parse reg s = .error er) :
    (stringsCut s = none ∧ er = .wrap .digestInvalid s) ∨
    (∃ a b, stringsCut s = some (a, b) ∧
      (er = .algorithmInvalidName ∨ er = .wrap .algorithmUnknown a ∨
        er = .wrap .encodingInvalid b)) := by
  unfold Parse at h
  by_cases hs : (s == "") = true
  · rw [if_pos hs] at h
    cases h
  · rw [if_neg hs] at h
    rcases hcut : stringsCut s with _ | ⟨a, b⟩
    · rw [hcut] at h
      dsimp only at h
      injection h with h'
      exact Or.inl ⟨rfl, h'.symm⟩
    · refine Or.inr ⟨a, b, rfl, ?_⟩
      rw [hcut] at h
      dsimp only at h
      rcases hl : algorithmInfoLookup reg a with er2 | ⟨ai, hA⟩
      · rw [hl] at h
        dsimp only at h
        injection h with h'
        subst h'
        rcases algorithmInfoLookup_error reg a er2 hl with h2 | h2
        · exact Or.inl h2
        · exact Or.inr (Or.inl h2)
      · rw [hl] at h
        dsimp only at h
        rcases henc : ai.enc with _ | e
        · rw [henc] at h
          dsimp only at h
          injection h with h'
          exact Or.inr (Or.inr h'.symm)
        · rw [henc] at h
          dsimp only at h
          by_cases hv : (e.Validate b) = true
          · rw [if_pos hv] at h
            cases h
          · rw [if_neg hv] at h
            injection h with h'
            exact Or.inr (Or.inr h'.symm)

/-- C2 (amended): `Parse` reports `DigestInvalid` exactly when a non-empty
input has no colon separator.  With a separator present, an empty
algorithm part gives `AlgorithmInvalidName`, an unregistered algorithm
part — including any part violating the naming grammar — gives
`AlgorithmUnknown`, and an encoded part failing the resolved algorithm's
encoder validation — including any character outside the permitted set —
gives `EncodingInvalid`; none of those errors is `DigestInvalid`. -/
theorem c2_parse_error_taxonomy (reg : Registry) :
    (∀ s : String, s ≠ "" → stringsCut s = none →
      Parse reg s = .error (.wrap .digestInvalid s)) ∧
    (∀ s a b, stringsCut s = some (a, b) → a = "" →
      Parse reg s = .error .algorithmInvalidName) ∧
    (∀ s a b, stringsCut s = some (a, b) → a ≠ "sha256" → a ≠ "sha512" → a ≠ "" →
      lookupAssoc reg a = none → Parse reg s = .error (.wrap .algorithmUnknown a)) ∧
    (∀ s a b ai hA e, stringsCut s = some (a, b) →
      algorithmInfoLookup reg a = .ok (ai, hA) → ai.enc = some e → e.Validate b = false →
      Parse reg s = .error (.wrap .encodingInvalid b)) ∧
    (∀ s er, Parse reg s = .error er → errorIs er .digestInvalid = true →
      stringsCut s = none) := by
  have hcut_ne : ∀ (s : String) (a b : String), stringsCut s = some (a, b) → s ≠ "" := by
    intro s a b hcut hse
    subst hse
    cases hcut
  refine ⟨?_, ?_, ?_, ?_, ?_⟩
  · intro s hne hcut
    unfold Parse
    rw [if_neg (by simp [beq_eq_false_iff_ne.mpr hne]), hcut]
  · intro s a b hcut ha
    subst ha
    unfold Parse
    rw [if_neg (by simp [beq_eq_false_iff_ne.mpr (hcut_ne s "" b hcut)]), hcut]
    dsimp only
    have hl : algorithmInfoLookup reg "" = .error .algorithmInvalidName := by
      unfold algorithmInfoLookup
      rw [if_neg (by decide), if_neg (by decide), if_pos rfl]
    rw [hl]
  · intro s a b hcut h256 h512 hemp hla
    unfold Parse
    rw [if_neg (by simp [beq_eq_false_iff_ne.mpr (hcut_ne s a b hcut)]), hcut]
    dsimp only
    have hl : algorithmInfoLookup reg a = .error (.wrap .algorithmUnknown a) := by
      unfold algorithmInfoLookup
      rw [if_neg h256, if_neg h512, if_neg hemp, hla]
    rw [hl]
  · intro s a b ai hA e hcut hlook henc hval
    unfold Parse
    rw [if_neg (by simp [beq_eq_false_iff_ne.mpr (hcut_ne s a b hcut)]), hcut]
    dsimp only
    rw [hlook]
    dsimp only
    rw [henc]
    dsimp only
    rw [if_neg (by simp [hval])]
  · intro s er hp his
    rcases Parse_error_cases reg s er hp with ⟨hc, _⟩ | ⟨a, b, hc, herr⟩
    · exact hc
    · exfalso
      rcases herr with rfl | rfl | rfl
      · exact absurd his (by decide)
      · rw [errorIs_wrap _ _ _ (by simp)] at his
        exact absurd his (by decide)
      · rw [errorIs_wrap _ _ _ (by simp)] at his
        exact absurd his (by decide)

/-- C2 counterexample: `":x"` fails the digest grammar (empty algorithm
part), but `Parse` rejects it with `AlgorithmInvalidName` — not with
`DigestInvalid` as the claim requires. -/
theorem c2_counterexample :
    digestGrammarMatch ":x" = false ∧
    Parse initRegistry ":x" = .error .algorithmInvalidName ∧
    errorIs .algorithmInvalidName .digestInvalid = false :=
  ⟨by decide, by rfl, by decide⟩

/-- C2 witness: the missing-separator branch at `"sha256"` and the
encoder-validation branch at `"sha256:zz"`. -/
theorem c2_witness :
    Parse initRegistry "sha256" = .error (.wrap .digestInvalid "sha256") ∧
    Parse initRegistry "sha256:zz" = .error (.wrap .encodingInvalid "zz") :=
  ⟨(c2_parse_error_taxonomy initRegistry).1 "sha256" (by decide) (by rfl),
    (c2_parse_error_taxonomy initRegistry).2.2.2.1 "sha256:zz" "sha256" "zz" aiSHA256 SHA256
      (EncodeHex.enc { Len := 64 }) (by rfl) rfl rfl (by decide)⟩

/-! ## Claim C3 -/

/-- C3 (amended): a zero-value Reader/Writer (no accumulator) fails
`Digest()` with `ReaderInvalid`/`WriterInvalid`; a Reader/Writer built by
`NewReader`/`NewWriter` — over an absent source/sink — for a registered
algorithm whose hash honours the `hash.Hash` contract and whose encoder is
the hex encoder of the matching length succeeds with zero bytes consumed
and returns the digest of the empty input for that algorithm. -/
theorem c3_digest_uninitialized_vs_empty :
    (∀ reg : Registry,
      Reader.digest reg { r := none, alg := { name := "" }, hash := none } =
        .error .readerInvalid) ∧
    (∀ reg : Registry,
      Writer.digest reg { w := none, alg := { name := "" }, hash := none } =
        .error .writerInvalid) ∧
    (∀ (reg : Registry) (A : Algorithm) (ai : AlgorithmInfo) (hA : Algorithm)
      (impl : HashImpl),
      algorithmRegexpMatch A.name = true →
      algorithmInfoLookup reg A.name = .ok (ai, hA) →
      ai.enc = some (EncodeHex.enc { Len := 2 * ai.size }) →
      ai.newFn = some (some impl) →
      impl.size = ai.size →
      (∀ d, ((impl.fn d).length : Int) = ai.size) →
      (∀ d q, impl.writeErr d q = none) →
      ∃ d, Reader.digest reg (NewReader reg none A) = .ok d ∧
        Writer.digest reg (NewWriter reg none A) = .ok d ∧
        Algorithm.FromBytes reg A [] = .ok d) := by
  refine ⟨fun _ => rfl, fun _ => rfl, ?_⟩
  intro reg A ai hA impl hgram hlook henc hfn hsz hsum hclean
  have hname : A.name ≠ "" := algorithmRegexpMatch_ne_empty A.name hgram
  have hres := resolveNewFn_of_lookup reg A ai hA impl hlook hfn
  refine ⟨{ alg := A.name, enc := String.mk (hexChars (impl.fn [])) }, ?_, ?_, ?_⟩
  · rw [NewReader_resolved reg none A impl hname hres]
    unfold Reader.digest
    dsimp only
    exact NewDigest_hex reg A ai hA impl [] hlook hsz henc (hsum [])
  · rw [NewWriter_resolved reg none A impl hname hres]
    unfold Writer.digest
    dsimp only
    exact NewDigest_hex reg A ai hA impl [] hlook hsz henc (hsum [])
  · exact FromBytes_hex reg A ai hA impl [] hgram hlook henc hfn hsz hsum hclean

/-- C3 counterexample: the constructed half of the claim fails as stated.
`foo` is registered (10-character hex encoder over a 32-byte hash), the
Reader is built by `NewReader` with zero bytes consumed, yet `Digest()`
fails with `EncodingInvalid` instead of returning the digest of the empty
input. -/
theorem c3_counterexample :
    lookupAssoc regFoo "foo" =
      some { name := "foo", size := 32, enc := some (EncodeHex.enc { Len := 10 }),
             newFn := some (some mockImpl32) } ∧
    Reader.digest regFoo (NewReader regFoo none { name := "foo" }) =
      .error .encodingInvalid :=
  ⟨rfl, rfl⟩

/-- C3 witness: the amended statement instantiated at the registered
algorithm `mok`: the zero-value Reader/Writer fail while the constructed
ones return the digest of the empty input. -/
theorem c3_witness :
    Reader.digest regMok { r := none, alg := { name := "" }, hash := none } =
      .error .readerInvalid ∧
    Writer.digest regMok { w := none, alg := { name := "" }, hash := none } =
      .error .writerInvalid ∧
    ∃ d, Reader.digest regMok (NewReader regMok none { name := "mok" }) = .ok d ∧
      Writer.digest regMok (NewWriter regMok none { name := "mok" }) = .ok d ∧
      Algorithm.FromBytes regMok { name := "mok" } [] = .ok d :=
  ⟨c3_digest_uninitialized_vs_empty.1 regMok,
    c3_digest_uninitialized_vs_empty.2.1 regMok,
    c3_digest_uninitialized_vs_empty.2.2 regMok { name := "mok" } aiMok { name := "mok" }
      mockImpl32 (by decide) rfl rfl rfl rfl
      (fun d => by simp [mockImpl32, aiMok]) (fun _ _ => rfl)⟩

/-! ## Claim C4 -/

/-- C4: writing `B` through a Writer over an (initially empty) in-memory
sink with a registered algorithm leaves the sink holding exactly `B`, and
the Writer's `Digest()` afterwards equals `A.FromBytes(B)` — under the
`hash.Hash` contract that writes to the accumulator never fail. -/
theorem c4_writer_passthrough (reg : Registry) (A : Algorithm) (ai : AlgorithmInfo)
    (hA : Algorithm) (impl : HashImpl) (B : List Nat)
    (hname : A.name ≠ "")
    (hlook : algorithmInfoLookup reg A.name = .ok (ai, hA))
    (hfn : ai.newFn = some (some impl))
    (hclean : ∀ d q, impl.writeErr d q = none) :
    (Writer.write (NewWriter reg (some []) A) B).2.w = some B ∧
    Writer.digest reg (Writer.write (NewWriter reg (some []) A) B).2 =
      Algorithm.FromBytes reg A B := by
  have hres := resolveNewFn_of_lookup reg A ai hA impl hlook hfn
  have hWs := NewWriter_resolved reg (some []) A impl hname hres
  have hWn := NewWriter_resolved reg none A impl hname hres
  have hwrite_s := Writer.write_clean
    { w := some [], alg := A, hash := some { impl := impl, data := [] } }
    { impl := impl, data := [] } B rfl hclean
  have hwrite_n := Writer.write_clean
    { w := none, alg := A, hash := some { impl := impl, data := [] } }
    { impl := impl, data := [] } B rfl hclean
  simp only [List.nil_append, Option.map_none', Option.map_some'] at hwrite_s hwrite_n
  constructor
  · rw [hWs, hwrite_s]
  · rw [hWs, hwrite_s]
    unfold Algorithm.FromBytes Algorithm.Digester
    rw [if_neg (by simp [beq_eq_false_iff_ne.mpr hname])]
    dsimp only
    rw [hWn, hwrite_n]
    rfl

/-- C4 witness: the pass-through property instantiated at the registered
algorithm `mok` and the bytes `[9, 8, 7]`. -/
theorem c4_witness :
    (Writer.write (NewWriter regMok (some []) { name := "mok" }) [9, 8, 7]).2.w =
      some [9, 8, 7] ∧
    Writer.digest regMok
        (Writer.write (NewWriter regMok (some []) { name := "mok" }) [9, 8, 7]).2 =
      Algorithm.FromBytes regMok { name := "mok" } [9, 8, 7] :=
  c4_writer_passthrough regMok { name := "mok" } aiMok { name := "mok" } mockImpl32 [9, 8, 7]
    (by decide) rfl rfl (fun _ _ => rfl)

/-! ## Claim C5 -/

/-- C5: `algorithmInfoRegister` performs its checks in source order —
existing name (`AlgorithmExists`, regardless of the other arguments), then
the naming grammar (`AlgorithmInvalidName`), then encoder presence
(`EncodeInterfaceInvalid`), then hash-factory soundness
(`HashFunctionInvalid` for a missing factory, a nil accumulator, or a
non-positive size) — and on success stores the record, which a subsequent
lookup of the name returns (the registry always holds the two built-ins,
so a freshly registered name cannot collide with the hardcoded lookup
fast path). -/
theorem c5_register_checks :
    (∀ (reg : Registry) (name : String) (enc : Option Encoder)
        (newFn : Option (Option HashImpl)),
      (lookupAssoc reg name).isSome = true →
      algorithmInfoRegister reg name enc newFn =
        (.error (.wrap .algorithmExists name), reg)) ∧
    (∀ (reg : Registry) (name : String) (enc : Option Encoder)
        (newFn : Option (Option HashImpl)),
      lookupAssoc reg name = none → algorithmRegexpMatch name = false →
      algorithmInfoRegister reg name enc newFn =
        (.error (.wrap .algorithmInvalidName name), reg)) ∧
    (∀ (reg : Registry) (name : String) (newFn : Option (Option HashImpl)),
      lookupAssoc reg name = none → algorithmRegexpMatch name = true →
      algorithmInfoRegister reg name none newFn =
        (.error (.wrap .encodeInterfaceInvalid name), reg)) ∧
    (∀ (reg : Registry) (name : String) (e : Encoder) (newFn : Option (Option HashImpl)),
      lookupAssoc reg name = none → algorithmRegexpMatch name = true →
      (newFn = none ∨ newFn = some none ∨ ∃ h, newFn = some (some h) ∧ h.size ≤ 0) →
      algorithmInfoRegister reg name (some e) newFn =
        (.error (.wrap .hashFunctionInvalid name), reg)) ∧
    (∀ (reg : Registry) (name : String) (e : Encoder) (h : HashImpl),
      lookupAssoc reg name = none → algorithmRegexpMatch name = true →
      0 < h.size →
      (lookupAssoc reg "sha256").isSome = true →
      (lookupAssoc reg "sha512").isSome = true →
      algorithmInfoRegister reg name (some e) (some (some h)) =
        (.ok ({ name := name, size := h.size, enc := some e, newFn := some (some h) },
            { name := name }),
          (name, { name := name, size := h.size, enc := some e, newFn := some (some h) })
            :: reg) ∧
      algorithmInfoLookup
          ((name, { name := name, size := h.size, enc := some e, newFn := some (some h) })
            :: reg) name =
        .ok ({ name := name, size := h.size, enc := some e, newFn := some (some h) },
          { name := name })) := by
  refine ⟨?_, ?_, ?_, ?_, ?_⟩
  · intro reg name enc newFn hin
    unfold algorithmInfoRegister
    rw [if_pos hin]
  · intro reg name enc newFn hout hbad
    unfold algorithmInfoRegister
    rw [if_neg (by simp [hout]), if_pos (by simp [hbad])]
  · intro reg name newFn hout hgram
    unfold algorithmInfoRegister
    rw [if_neg (by simp [hout]), if_neg (by simp [hgram])]
  · intro reg name e newFn hout hgram hbadfn
    unfold algorithmInfoRegister
    rw [if_neg (by simp [hout]), if_neg (by simp [hgram])]
    rcases hbadfn with rfl | rfl | ⟨h, rfl, hsz⟩
    · rfl
    · rfl
    · dsimp only
      rw [if_pos hsz]
  · intro reg name e h hout hgram hpos h256 h512
    have hne256 : name ≠ "sha256" := by
      intro hx
      subst hx
      rw [hout] at h256
      cases h256
    have hne512 : name ≠ "sha512" := by
      intro hx
      subst hx
      rw [hout] at h512
      cases h512
    have hnee : name ≠ "" := algorithmRegexpMatch_ne_empty name hgram
    constructor
    · unfold algorithmInfoRegister
      rw [if_neg (by simp [hout]), if_neg (by simp [hgram])]
      dsimp only
      rw [if_neg (by omega)]
    · unfold algorithmInfoLookup
      rw [if_neg hne256, if_neg hne512, if_neg hnee]
      unfold lookupAssoc
      simp

/-- C5 witness: registering `mok` over the initial registry follows the
success branch and the stored record is returned by a subsequent lookup;
re-registering `sha256` fails with `AlgorithmExists` even with no encoder
and no hash factory. -/
theorem c5_witness :
    algorithmInfoRegister initRegistry "mok" (some (EncodeHex.enc { Len := 64 }))
        (some (some mockImpl32)) = (.ok (aiMok, { name := "mok" }), regMok) ∧
    algorithmInfoLookup regMok "mok" = .ok (aiMok, { name := "mok" }) ∧
    algorithmInfoRegister initRegistry "sha256" none none =
      (.error (.wrap .algorithmExists "sha256"), initRegistry) :=
  ⟨((c5_register_checks.2.2.2.2 initRegistry "mok" (EncodeHex.enc { Len := 64 }) mockImpl32
      rfl (by decide) (by decide) rfl rfl).1),
    ((c5_register_checks.2.2.2.2 initRegistry "mok" (EncodeHex.enc { Len := 64 }) mockImpl32
      rfl (by decide) (by decide) rfl rfl).2),
    c5_register_checks.1 initRegistry "sha256" none none rfl⟩

/-! ## Claim C6 -/

/-- C6: the hex encoder fails with `EncodingInvalid` exactly when the
input length doubled differs from the configured text length; successful
output has exactly that length, is lowercase hex, and passes `Validate`;
and `Validate` — a total Boolean function — accepts exactly the strings of
the configured length whose characters all lie in `[0-9a-f]`. -/
theorem c6_hex_encoder (L : Int) :
    (∀ p : List Nat,
      (EncodeHex.Encode { Len := L } p = .error .encodingInvalid ↔
        2 * (p.length : Int) ≠ L) ∧
      (∀ s, EncodeHex.Encode { Len := L } p = .ok s →
        (s.length : Int) = L ∧ s.data.all isHexChar = true ∧
        EncodeHex.Validate { Len := L } s = true)) ∧
    (∀ s : String, EncodeHex.Validate { Len := L } s = true ↔
      ((s.length : Int) = L ∧ ∀ c ∈ s.data, isHexChar c = true)) := by
  constructor
  · intro p
    constructor
    · by_cases hc : 2 * (p.length : Int) ≠ L
      · simp [EncodeHex.Encode, hc]
      · simp [EncodeHex.Encode, hc]
    · intro s hok
      unfold EncodeHex.Encode at hok
      by_cases hc : 2 * (p.length : Int) ≠ L
      · rw [if_pos hc] at hok
        cases hok
      · rw [if_neg hc] at hok
        injection hok with hok'
        push_neg at hc
        subst hok'
        rw [← hc, sprintfStarX_exact]
        refine ⟨by rw [length_mk_hexChars]; push_cast; ring, ?_, ?_⟩
        · simp only [List.all_eq_true]
          exact hexChars_all p
        · exact EncodeHex.Validate_hexChars (2 * (p.length : Int)) p rfl
  · intro s
    simp [EncodeHex.Validate, isHex, List.all_eq_true]

/-- C6 witness: encoding `[0xab, 0xcd]` with `Len = 4` succeeds and the
result has length 4, is lowercase hex, and validates. -/
theorem c6_witness :
    EncodeHex.Encode { Len := 4 } [171, 205] = .ok (String.mk (hexChars [171, 205])) ∧
    ((String.mk (hexChars [171, 205])).length : Int) = 4 ∧
    (String.mk (hexChars [171, 205])).data.all isHexChar = true ∧
    EncodeHex.Validate { Len := 4 } (String.mk (hexChars [171, 205])) = true :=
  have henc : EncodeHex.Encode { Len := 4 } [171, 205] =
      .ok (String.mk (hexChars [171, 205])) :=
    EncodeHex.Encode_hexChars 4 [171, 205] (by decide)
  ⟨henc, ((c6_hex_encoder 4).1 [171, 205]).2 (String.mk (hexChars [171, 205])) henc⟩

/-! ## Claim C7 -/

theorem NewDigest_ok_alg (reg : Registry) (alg : Algorithm) (h : Option HashSt) (d : Digest)
    (hok : NewDigest reg alg h = .ok d) : d.alg = alg.name ∧ alg.name ≠ "" := by
  unfold NewDigest at hok
  rcases hl : algorithmInfoLookup reg alg.name with er | ⟨ai, hA2⟩
  · rw [hl] at hok
    cases hok
  · rw [hl] at hok
    dsimp only at hok
    rcases h with _ | hs
    · cases hok
    · dsimp only at hok
      by_cases hsz : HashSt.Size hs ≠ ai.size
      · rw [if_pos hsz] at hok
        cases hok
      · rw [if_neg hsz] at hok
        rcases he : ai.enc with _ | e
        · rw [he] at hok
          cases hok
        · rw [he] at hok
          dsimp only at hok
          rcases hee : e.Encode hs.Sum with er2 | s2
          · rw [hee] at hok
            cases hok
          · rw [hee] at hok
            injection hok with hok'
            subst hok'
            refine ⟨rfl, ?_⟩
            intro hempty
            unfold algorithmInfoLookup at hl
            rw [hempty] at hl
            rw [if_neg (by decide), if_neg (by decide), if_pos rfl] at hl
            cases hl

theorem reader_digest_ok_not_zero (reg : Registry) (r : Reader) (d : Digest)
    (h : Reader.digest reg r = .ok d) : d.IsZero = false := by
  unfold Reader.digest at h
  rcases hh : r.hash with _ | hs
  · rw [hh] at h
    cases h
  · rw [hh] at h
    dsimp only at h
    have := NewDigest_ok_alg reg r.alg (some hs) d h
    unfold Digest.IsZero
    rw [this.1]
    simp [beq_eq_false_iff_ne.mpr this.2]

theorem writer_digest_ok_not_zero (reg : Registry) (w : Writer) (d : Digest)
    (h : Writer.digest reg w = .ok d) : d.IsZero = false := by
  unfold Writer.digest at h
  rcases hh : w.hash with _ | hs
  · rw [hh] at h
    cases h
  · rw [hh] at h
    dsimp only at h
    have := NewDigest_ok_alg reg w.alg (some hs) d h
    unfold Digest.IsZero
    rw [this.1]
    simp [beq_eq_false_iff_ne.mpr this.2]

/-- C7: `Verify` never errors (it is a total Boolean), returns true exactly
when digest computation succeeds, the candidate is not the zero digest,
and the computed digest is `Equal` to the candidate; in particular the
zero digest never verifies and the exact computed digest always does. -/
theorem c7_verify_semantics :
    (∀ (reg : Registry) (r : Reader) (c : Digest),
      Reader.verify reg r c = true ↔
        ∃ d, Reader.digest reg r = .ok d ∧ c.IsZero = false ∧ d.Equal c = true) ∧
    (∀ (reg : Registry) (w : Writer) (c : Digest),
      Writer.verify reg w c = true ↔
        ∃ d, Writer.digest reg w = .ok d ∧ c.IsZero = false ∧ d.Equal c = true) ∧
    (∀ (reg : Registry) (r : Reader),
      Reader.verify reg r { alg := "", enc := "" } = false) ∧
    (∀ (reg : Registry) (w : Writer),
      Writer.verify reg w { alg := "", enc := "" } = false) ∧
    (∀ (reg : Registry) (r : Reader) (d : Digest),
      Reader.digest reg r = .ok d → Reader.verify reg r d = true) ∧
    (∀ (reg : Registry) (w : Writer) (d : Digest),
      Writer.digest reg w = .ok d → Writer.verify reg w d = true) := by
  refine ⟨?_, ?_, ?_, ?_, ?_, ?_⟩
  · intro reg r c
    unfold Reader.verify
    rcases hd : Reader.digest reg r with er | d0
    · simp
    · simp [Bool.and_eq_true, Bool.not_eq_true']
  · intro reg w c
    unfold Writer.verify
    rcases hd : Writer.digest reg w with er | d0
    · simp
    · simp [Bool.and_eq_true, Bool.not_eq_true']
  · intro reg r
    unfold Reader.verify
    rcases hd : Reader.digest reg r with er | d0
    · rfl
    · simp [Digest.IsZero]
  · intro reg w
    unfold Writer.verify
    rcases hd : Writer.digest reg w with er | d0
    · rfl
    · simp [Digest.IsZero]
  · intro reg r d hd
    unfold Reader.verify
    rw [hd]
    simp [reader_digest_ok_not_zero reg r d hd, Digest.Equal]
  · intro reg w d hd
    unfold Writer.verify
    rw [hd]
    simp [writer_digest_ok_not_zero reg w d hd, Digest.Equal]

/-- C7 witness: a live `mok` Reader verifies its own computed digest and
rejects the zero digest. -/
theorem c7_witness :
    Reader.verify regMok
      { r := none, alg := { name := "mok" },
        hash := some { impl := mockImpl32, data := [] } }
      { alg := "mok", enc := String.mk (hexChars (List.replicate 32 0)) } = true ∧
    Reader.verify regMok
      { r := none, alg := { name := "mok" },
        hash := some { impl := mockImpl32, data := [] } }
      { alg := "", enc := "" } = false :=
  ⟨c7_verify_semantics.2.2.2.2.1 regMok
      { r := none, alg := { name := "mok" },
        hash := some { impl := mockImpl32, data := [] } }
      { alg := "mok", enc := String.mk (hexChars (List.replicate 32 0)) } (by rfl),
    c7_verify_semantics.2.2.1 regMok
      { r := none, alg := { name := "mok" },
        hash := some { impl := mockImpl32, data := [] } }⟩

/-! ## Claim C8 -/

/-- C8: on a Digester built by `NewWriter` (the shape `Algorithm.Digester`
returns) and fed any sequence of writes, calling `Digest()` — a state
transformer that, per the `hash.Hash` contract on `Sum`, returns the
Writer unchanged — twice with no intervening writes yields the same
result, and `Equal` results when it succeeds; and a write performed after
finalizing still reflects every byte fed so far: digesting then writing
`p` gives the same digest as the writer fed the whole extended sequence e
at once. -/
theorem c8_idempotent_finalize (reg : Registry) (A : Algorithm) (ps : List (List Nat))
    (p : List Nat) :
    (Writer.digestSt reg (Writer.writeMany (NewWriter reg none A) ps)).1 =
      (Writer.digestSt reg
        (Writer.digestSt reg (Writer.writeMany (NewWriter reg none A) ps)).2).1 ∧
    (Writer.digestSt reg (Writer.writeMany (NewWriter reg none A) ps)).2 =
      Writer.writeMany (NewWriter reg none A) ps ∧
    (∀ d, (Writer.digestSt reg (Writer.writeMany (NewWriter reg none A) ps)).1 = .ok d →
      ∃ d2, (Writer.digestSt reg
          (Writer.digestSt reg (Writer.writeMany (NewWriter reg none A) ps)).2).1 = .ok d2 ∧
        d.Equal d2 = true) ∧
    Writer.digest reg
        (Writer.write
          (Writer.digestSt reg (Writer.writeMany (NewWriter reg none A) ps)).2 p).2 =
      Writer.digest reg (Writer.writeMany (NewWriter reg none A) (ps ++ [p])) := by
  refine ⟨rfl, rfl, ?_, ?_⟩
  · intro d hd
    exact ⟨d, hd, by simp [Digest.Equal]⟩
  · show Writer.digest reg
        (Writer.write (Writer.writeMany (NewWriter reg none A) ps) p).2 =
      Writer.digest reg (Writer.writeMany (NewWriter reg none A) (ps ++ [p]))
    unfold Writer.writeMany
    rw [List.foldl_append]
    rfl

/-- C8 witness: the `mok` Digester fed `[1]` then `[2]` finalizes twice to
the same successful digest. -/
theorem c8_witness :
    ∃ d2, (Writer.digestSt regMok
        (Writer.digestSt regMok
          (Writer.writeMany (NewWriter regMok none { name := "mok" }) [[1], [2]])).2).1 =
      .ok d2 ∧
      Digest.Equal { alg := "mok", enc := String.mk (hexChars (List.replicate 32 0)) } d2 =
        true :=
  (c8_idempotent_finalize regMok { name := "mok" } [[1], [2]] [3]).2.2.1
    { alg := "mok", enc := String.mk (hexChars (List.replicate 32 0)) } (by rfl)

/-! ## Claim C9 -/

theorem errorIs_refl (x : GoErr) : errorIs x x = true := by
  cases x <;> simp [errorIs]

theorem errorIs_join_left (a b t : GoErr) (h : errorIs a t = true) :
    errorIs (.join a b) t = true := by
  simp [errorIs, h]

theorem errorIs_join_right (a b t : GoErr) (h : errorIs b t = true) :
    errorIs (.join a b) t = true := by
  simp [errorIs, h]

/-- C9: when the source produces `n > 0` bytes, `Read` feeds exactly those
bytes into the accumulator before returning (also when the source reported
an error on the same call), returns that `n`, and combines a hash-write
failure with the source error by `errors.Join`, keeping both discoverable
through `errors.Is`; with no hash failure the source error is returned
unchanged. -/
theorem c9_read_feeds_hash (rd : Reader) (bs : List Nat) (e : Option GoErr)
    (rest : Source) (hs : HashSt)
    (hr : rd.r = some ((bs, e) :: rest))
    (hh : rd.hash = some hs)
    (hbs : bs ≠ []) :
    (Reader.read rd).1.1 = (bs.length : Int) ∧
    (Reader.read rd).2.hash = some { impl := hs.impl, data := hs.data ++ bs } ∧
    (Reader.read rd).2.r = some rest ∧
    ((Reader.read rd).1.2 =
      match hs.impl.writeErr hs.data bs, e with
      | some he, some se => some (.join se he)
      | some he, none => some he
      | none, _ => e) ∧
    (∀ he se, hs.impl.writeErr hs.data bs = some he → e = some se →
      (Reader.read rd).1.2 = some (.join se he) ∧
      errorIs (.join se he) se = true ∧ errorIs (.join se he) he = true) := by
  have hlen : 0 < bs.length := List.length_pos.mpr hbs
  have hn : ¬ ((bs.length : Int) ≤ 0) := by
    omega
  have hread : Reader.read rd = (((bs.length : Int),
      match hs.impl.writeErr hs.data bs, e with
      | some he, some se => some (.join se he)
      | some he, none => some he
      | none, _ => e),
      { r := some rest, alg := rd.alg,
        hash := some { impl := hs.impl, data := hs.data ++ bs } }) := by
    obtain ⟨rr, ra, rh⟩ := rd
    simp only at hr hh
    subst hr
    subst hh
    unfold Reader.read
    dsimp only
    rw [if_neg hn]
    dsimp only [HashSt.write]
    rcases hwe : hs.impl.writeErr hs.data bs with _ | he
    · rcases e with _ | se <;> rfl
    · rcases e with _ | se <;> rfl
  rw [hread]
  refine ⟨rfl, rfl, rfl, rfl, ?_⟩
  intro he se h1 h2
  subst h2
  rw [h1]
  exact ⟨rfl, errorIs_join_left _ _ _ (errorIs_refl se),
    errorIs_join_right _ _ _ (errorIs_refl he)⟩

/-- C9 witness: a Reader whose source yields `[7]` together with a source
error, over an accumulator whose write also fails: the byte is absorbed
and both errors surface inside the joined error. -/
theorem c9_witness :
    (Reader.read rdErr).1.1 = 1 ∧
    (Reader.read rdErr).2.hash = some { impl := mockImplErr, data := [7] } ∧
    (Reader.read rdErr).1.2 = some (.join (.str "boom") (.str "hashfail")) ∧
    errorIs (.join (.str "boom") (.str "hashfail")) (.str "boom") = true ∧
    errorIs (.join (.str "boom") (.str "hashfail")) (.str "hashfail") = true := by
  have h := c9_read_feeds_hash rdErr
    [7] (some (.str "boom")) [] { impl := mockImplErr, data := [] }
    rfl rfl (by decide)
  have hboth := h.2.2.2.2 (.str "hashfail") (.str "boom") rfl rfl
  exact ⟨h.1, h.2.1, hboth.1, hboth.2.1, hboth.2.2⟩

/-! ## Claim C10 -/

/-- C10: when `Parse` fails, `UnmarshalText` returns that same error and
leaves the receiver digest exactly as it was — all-or-nothing
replacement. -/
theorem c10_unmarshal_all_or_nothing (reg : Registry) (d : Digest) (text : String)
    (e : GoErr) (h : Parse reg text = .error e) :
    Digest.UnmarshalText reg d text = (d, some e) := by
  unfold Digest.UnmarshalText
  rw [h]

/-- C10 witness: unmarshalling the invalid text `"bad"` over a live
receiver returns the parse error and keeps the receiver unchanged. -/
theorem c10_witness :
    Parse initRegistry "bad" = .error (.wrap .digestInvalid "bad") ∧
    Digest.UnmarshalText initRegistry { alg := "aa", enc := "bb" } "bad" =
      ({ alg := "aa", enc := "bb" }, some (.wrap .digestInvalid "bad")) :=
  ⟨by rfl,
    c10_unmarshal_all_or_nothing initRegistry { alg := "aa", enc := "bb" } "bad"
      (.wrap .digestInvalid "bad") (by rfl)⟩

end OciDigest
